import Mathlib

/-!
Verification development for the filesearch document store
(`src/core/database.py`, `src/core/search_manager.py`,
`src/utils/fuzzy_search.py`, `src/parsers/pdf_parser.py`).

The SQLite-backed store is embedded shallowly: the two tables
(`docs_meta`, `docs_fts`) become lists of records, the AUTOINCREMENT
rowid counter becomes an explicit `nextId` field, and each Python
method becomes a Lean function over that state.  External engines
(the FTS5 MATCH evaluator, the RapidFuzz scorer) are passed in as
oracle parameters; everything else is translated directly from the
source.
-/

namespace Filesearch

/-! ## String helpers (Python / SQLite primitives) -/

/-- ASCII lower-casing of a single character.  SQLite's default `LIKE`
is case-insensitive exactly on the ASCII range; Python's `str.lower`
agrees with this on the ASCII fragment used throughout. -/
def asciiLower (c : Char) : Char :=
  if 'A' ≤ c ∧ c ≤ 'Z' then Char.ofNat (c.toNat + 32) else c

/-- `str.lower()` restricted to the ASCII fragment (all concrete inputs
in this development are ASCII). -/
def pyLower (s : String) : String :=
  String.mk (s.toList.map asciiLower)

/-- Whitespace recognised by Python's argument-less `str.split` /
`str.strip` on the ASCII fragment. -/
def isPySpace (c : Char) : Bool :=
  c == ' ' || c == '\t' || c == '\n' || c == '\r' || c == '\x0b' || c == '\x0c'

/-- Split a character list at every character satisfying `p`, keeping
empty pieces. -/
def splitChars (p : Char → Bool) (l : List Char) : List (List Char) :=
  l.foldr
    (fun c acc =>
      if p c then [] :: acc
      else
        match acc with
        | [] => [[c]]
        | h :: t => (c :: h) :: t)
    [[]]

/-- `query.split()` followed by dropping empty pieces — the
`[k.strip() for k in query.split() if k.strip()]` idiom used by
`search_exact`, `search_path` and `search_combined`. -/
def pySplit (s : String) : List String :=
  ((splitChars isPySpace s.toList).map String.mk).filter (fun t => t ≠ "")

/-- `str.strip()` (used by `SearchManager.search` on the query). -/
def pyStrip (s : String) : String :=
  String.mk (((s.toList.dropWhile isPySpace).reverse.dropWhile isPySpace).reverse)

/-- `str.lstrip('.')` — normalisation applied to file-type filters. -/
def lstripDots (s : String) : String :=
  String.mk (s.toList.dropWhile (fun c => c == '.'))

/-- One character of a `LIKE` pattern matching one character of the
subject: equal up to ASCII case folding. -/
def likeChar (p c : Char) : Bool :=
  asciiLower p == asciiLower c

/-- SQLite `LIKE` matching over character lists: `%` matches any
(possibly empty) sequence, `_` matches exactly one character, any other
pattern character matches ASCII-case-insensitively.  The fuel argument
makes the recursion structural (each step shortens pattern + subject,
so `|p| + |s| + 1` fuel always suffices and the `0` case is never
reached from `likeMatchL`). -/
def likeMatchFuel : Nat → List Char → List Char → Bool
  | 0, _, _ => false
  | _ + 1, [], [] => true
  | _ + 1, [], _ :: _ => false
  | fuel + 1, '%' :: ps, s =>
      likeMatchFuel fuel ps s ||
        (match s with
         | [] => false
         | _ :: cs => likeMatchFuel fuel ('%' :: ps) cs)
  | fuel + 1, '_' :: ps, _ :: cs => likeMatchFuel fuel ps cs
  | _ + 1, '_' :: _, [] => false
  | fuel + 1, p :: ps, c :: cs => likeChar p c && likeMatchFuel fuel ps cs
  | _ + 1, _ :: _, [] => false

/-- SQLite `LIKE` over character lists, with sufficient fuel. -/
def likeMatchL (p s : List Char) : Bool :=
  likeMatchFuel (p.length + s.length + 1) p s

/-- `subject LIKE pattern` in SQLite. -/
def sqliteLike (pattern subject : String) : Bool :=
  likeMatchL pattern.toList subject.toList

/-- Boolean prefix test on character lists. -/
def listPrefix : List Char → List Char → Bool
  | [], _ => true
  | _ :: _, [] => false
  | a :: as, b :: bs => a == b && listPrefix as bs

/-- Boolean infix (substring) test on character lists. -/
def listInfix (needle : List Char) : List Char → Bool
  | [] => listPrefix needle []
  | c :: rest => listPrefix needle (c :: rest) || listInfix needle rest

/-- Plain (case-sensitive) substring containment. -/
def strContains (hay needle : String) : Bool :=
  listInfix needle.toList hay.toList

/-! ## Store state (`docs_meta`, `docs_fts`, AUTOINCREMENT counter) -/

/-- One row of `docs_meta` (database.py `_create_tables`). -/
structure MetaRow where
  docId : Nat
  filePath : String
  fileHash : String
  fileSize : Nat
  fileCreated : Int
  fileModified : Int
  lastIndexed : Int
  fileType : String
  deriving Repr, DecidableEq

/-- One row of the `docs_fts` FTS5 virtual table: `doc_id UNINDEXED`
plus the content column.  FTS5 places no uniqueness constraint on
`doc_id`, so the table is a plain list. -/
structure FtsRow where
  docId : Nat
  content : String
  deriving Repr, DecidableEq

/-- The store: both tables in rowid order plus the AUTOINCREMENT
counter of `docs_meta` (`doc_id INTEGER PRIMARY KEY AUTOINCREMENT`
never reuses a rowid, so fresh ids are strictly increasing). -/
structure DB where
  meta : List MetaRow
  fts : List FtsRow
  nextId : Nat
  deriving Repr, DecidableEq

/-- Well-formedness maintained by the store operations: every stored
`doc_id` was handed out by the counter, and `docs_meta` has unique
paths (its `UNIQUE` constraint) and unique rowids (primary key). -/
def WF (db : DB) : Prop :=
  (∀ f ∈ db.fts, f.docId < db.nextId) ∧
  (∀ m ∈ db.meta, m.docId < db.nextId) ∧
  db.meta.Pairwise (fun a b => a.filePath ≠ b.filePath) ∧
  db.meta.Pairwise (fun a b => a.docId ≠ b.docId)

/-- Filesystem facts consumed by `add_document`: the SHA-256 hex digest
(`""` models a hash failure, the hard-failure case), the `stat` fields,
and the wall clock read by `int(time.time())`. -/
structure FileInfo where
  fileHash : String
  fileSize : Nat
  fileCreated : Int
  fileModified : Int
  now : Int
  deriving Repr, DecidableEq

/-! ## Store operations (database.py) -/

/-- `DocumentDatabase.add_document` (database.py:142-202).

`INSERT OR REPLACE INTO docs_meta` deletes any row conflicting on the
unique `file_path` and inserts a fresh row; since `doc_id` is not in
the column list the fresh row receives a new AUTOINCREMENT rowid
(`cursor.lastrowid`).  The FTS branch then inserts `(lastrowid,
content)` when `content` is non-empty (no conflict is possible in the
FTS5 table, so `INSERT OR REPLACE` is a plain insert there) and
otherwise deletes FTS rows carrying the fresh rowid.  An empty hash
aborts before any write.  Returns `(success, new state)`. -/
def addDocument (db : DB) (filePath content fileType : String)
    (info : FileInfo) : Bool × DB :=
  if info.fileHash = "" then (false, db)
  else
    let newId := db.nextId
    let newRow : MetaRow :=
      ⟨newId, filePath, info.fileHash, info.fileSize, info.fileCreated,
        info.fileModified, info.now, fileType⟩
    let meta' := db.meta.filter (fun m => m.filePath ≠ filePath) ++ [newRow]
    let fts' :=
      if content ≠ "" then db.fts ++ [⟨newId, content⟩]
      else db.fts.filter (fun f => f.docId ≠ newId)
    (true, ⟨meta', fts', newId + 1⟩)

/-- `DocumentDatabase.get_document_content` (database.py:690-709):
`fetchone` on the join of `docs_fts` with `docs_meta` restricted to the
given path, scanning `docs_fts` in rowid order. -/
def getDocumentContent (db : DB) (filePath : String) : Option String :=
  ((db.fts.filter (fun f =>
      db.meta.any (fun m => m.docId == f.docId && m.filePath == filePath))).map
    (fun f => f.content)).head?

/-- The `m.file_type IN (...)` filter shared by the search functions.
Python's `if file_types:` skips the clause both for `None` and for an
empty list; extensions are normalised with `lstrip('.')` and compared
by SQL `=` (case-sensitive). -/
def typeFilter (fileTypes : Option (List String)) (t : String) : Bool :=
  match fileTypes with
  | some (x :: xs) => ((x :: xs).map lstripDots).contains t
  | _ => true

/-- The rows of `FROM docs_fts JOIN docs_meta m ON docs_fts.doc_id =
m.doc_id`, scanned `docs_fts`-major in rowid order. -/
def joinRows (db : DB) : List (FtsRow × MetaRow) :=
  db.fts.flatMap (fun f =>
    (db.meta.filter (fun m => f.docId == m.docId)).map (fun m => (f, m)))

/-- The result dictionary produced by `search_exact` / `search_fts5`:
metadata columns only (note the duplicated `last_modified` alias), no
body. -/
structure ResultRow where
  file_path : String
  file_type : String
  file_size : Nat
  file_created : Int
  file_modified : Int
  last_modified : Int
  last_indexed : Int
  file_hash : String
  deriving Repr, DecidableEq

/-- Projection of a metadata row to the result dictionary. -/
def rowOfMeta (m : MetaRow) : ResultRow :=
  ⟨m.filePath, m.fileType, m.fileSize, m.fileCreated, m.fileModified,
    m.fileModified, m.lastIndexed, m.fileHash⟩

/-- The WHERE clause of `search_exact`: every keyword as a
`content LIKE '%keyword%'` conjunct, plus the file-type filter. -/
def exactPred (keywords : List String) (fileTypes : Option (List String))
    (fm : FtsRow × MetaRow) : Bool :=
  keywords.all (fun k => sqliteLike ("%" ++ k ++ "%") fm.1.content) &&
    typeFilter fileTypes fm.2.fileType

/-- `DocumentDatabase.search_exact` (database.py:284-353): split the
query on whitespace, return `[]` when no keyword remains, otherwise
filter the FTS/meta join by the LIKE conjunction and the type filter,
truncate to `limit`, and project to metadata-only rows. -/
def searchExact (db : DB) (query : String) (limit : Nat)
    (fileTypes : Option (List String)) : List ResultRow :=
  let keywords := pySplit query
  if keywords = [] then []
  else
    (((joinRows db).filter (exactPred keywords fileTypes)).take limit).map
      (fun fm => rowOfMeta fm.2)

/-- `DocumentDatabase.search_fts5` (database.py:355-418).  The FTS5
MATCH evaluation with rank ordering is the external engine; `oracle q`
abstracts it, returning the matching `docs_fts` rows in rank order for
this store, or `none` when the query raises (malformed MATCH syntax and
the like).  On `none` the code falls back to
`self.search_exact(query, limit)` — without the file-type filter. -/
def searchFts5 (oracle : String → Option (List FtsRow)) (db : DB)
    (query : String) (limit : Nat) (fileTypes : Option (List String)) :
    List ResultRow :=
  match oracle query with
  | some ranked =>
      ((ranked.flatMap (fun f =>
          (db.meta.filter (fun m => f.docId == m.docId)).map (fun m => (f, m)))
        |>.filter (fun fm => typeFilter fileTypes fm.2.fileType)).take limit).map
        (fun fm => rowOfMeta fm.2)
  | none => searchExact db query limit none

/-- Result dictionary of `search_path` / `search_by_metadata`: as
`ResultRow` but without `file_hash`. -/
structure PathRow where
  file_path : String
  file_type : String
  file_size : Nat
  file_created : Int
  file_modified : Int
  last_modified : Int
  last_indexed : Int
  deriving Repr, DecidableEq

/-- Projection of a metadata row to the hash-less result dictionary. -/
def pathRowOfMeta (m : MetaRow) : PathRow :=
  ⟨m.filePath, m.fileType, m.fileSize, m.fileCreated, m.fileModified,
    m.fileModified, m.lastIndexed⟩

/-- Stable insertion into a sorted list (model of SQL `ORDER BY`). -/
def insertSorted (le : α → α → Bool) (x : α) : List α → List α
  | [] => [x]
  | y :: ys => if le x y then x :: y :: ys else y :: insertSorted le x ys

/-- Stable insertion sort (model of SQL `ORDER BY`). -/
def sortByKey (le : α → α → Bool) : List α → List α
  | [] => []
  | x :: xs => insertSorted le x (sortByKey le xs)

/-- The WHERE clause of `search_path`: every keyword as a
`file_path LIKE '%keyword%'` conjunct plus the type filter. -/
def pathPred (keywords : List String) (fileTypes : Option (List String))
    (m : MetaRow) : Bool :=
  keywords.all (fun k => sqliteLike ("%" ++ k ++ "%") m.filePath) &&
    typeFilter fileTypes m.fileType

/-- `DocumentDatabase.search_path` (database.py:420-480): AND of LIKE
predicates over the path, `ORDER BY file_path`, `LIMIT`. -/
def searchPath (db : DB) (pathQuery : String) (limit : Nat)
    (fileTypes : Option (List String)) : List PathRow :=
  let keywords := pySplit pathQuery
  if keywords = [] then []
  else
    (((sortByKey (fun a b => a.filePath ≤ b.filePath)
        (db.meta.filter (pathPred keywords fileTypes))).take limit).map
      pathRowOfMeta)

/-- An optional SQL clause: present parameters contribute their
predicate, absent ones contribute no clause. -/
def optCheck (o : Option α) (f : α → Bool) : Bool :=
  match o with
  | some x => f x
  | none => true

/-- The WHERE clause of `search_by_metadata` (database.py:509-546).
Note that `modified_after` / `modified_before` compare against
`last_indexed`, not `file_modified`. -/
def metadataPred (minSize maxSize : Option Nat)
    (createdAfter createdBefore modifiedAfter modifiedBefore : Option Int)
    (fileTypes : Option (List String)) (m : MetaRow) : Bool :=
  optCheck minSize (fun s => decide (s ≤ m.fileSize)) &&
  optCheck maxSize (fun s => decide (m.fileSize ≤ s)) &&
  optCheck createdAfter (fun t => decide (t ≤ m.fileCreated)) &&
  optCheck createdBefore (fun t => decide (m.fileCreated ≤ t)) &&
  optCheck modifiedAfter (fun t => decide (t ≤ m.lastIndexed)) &&
  optCheck modifiedBefore (fun t => decide (m.lastIndexed ≤ t)) &&
  typeFilter fileTypes m.fileType

/-- `DocumentDatabase.search_by_metadata` (database.py:482-569):
conjunction of the range predicates, `ORDER BY file_created DESC`,
`LIMIT`. -/
def searchByMetadata (db : DB) (minSize maxSize : Option Nat)
    (createdAfter createdBefore modifiedAfter modifiedBefore : Option Int)
    (fileTypes : Option (List String)) (limit : Nat) : List PathRow :=
  ((sortByKey (fun a b => b.fileCreated ≤ a.fileCreated)
      (db.meta.filter
        (metadataPred minSize maxSize createdAfter createdBefore
          modifiedAfter modifiedBefore fileTypes))).take limit).map
    pathRowOfMeta

/-- `DocumentDatabase.remove_document` (database.py:739-772): look up
the first row with the path (unique under `WF`), then delete by
`doc_id` from both tables. -/
def removeDocument (db : DB) (filePath : String) : Bool × DB :=
  match db.meta.find? (fun m => m.filePath == filePath) with
  | none => (false, db)
  | some m =>
      (true,
        ⟨db.meta.filter (fun r => r.docId ≠ m.docId),
          db.fts.filter (fun r => r.docId ≠ m.docId), db.nextId⟩)

/-- `DocumentDatabase.update_file_path` (database.py:774-807): fails if
the old path is absent; the `UPDATE` raises on the `file_path UNIQUE`
constraint (rolled back to `False`) when a different row already holds
the new path; otherwise rewrites the path in place. -/
def updateFilePath (db : DB) (oldPath newPath : String) : Bool × DB :=
  if db.meta.any (fun m => m.filePath == oldPath) then
    if db.meta.any (fun m => m.filePath == newPath && m.filePath != oldPath) then
      (false, db)
    else
      (true,
        ⟨db.meta.map (fun m =>
            if m.filePath == oldPath then { m with filePath := newPath } else m),
          db.fts, db.nextId⟩)
  else (false, db)

/-- The fields of `DocumentDatabase.get_stats` that depend only on the
store state (the on-disk file size is external and omitted). -/
structure Stats where
  document_count : Nat
  total_content_size : Nat
  deriving Repr, DecidableEq

/-- `DocumentDatabase.get_stats` (database.py:809-843). -/
def getStats (db : DB) : Stats :=
  ⟨db.meta.length, (db.meta.map (fun m => m.fileSize)).sum⟩

/-! ## Fuzzy-search utilities (utils/fuzzy_search.py) -/

/-- CJK codepoint test `'一' <= char <= '鿿'`. -/
def isCJK (c : Char) : Bool :=
  0x4e00 ≤ c.toNat && c.toNat ≤ 0x9fff

/-- Python's `\w` on the character classes exercised here: ASCII
alphanumerics, underscore, and the CJK range (other Unicode word
characters do not occur in the inputs of this development). -/
def isWordChar (c : Char) : Bool :=
  c.isAlphanum || c == '_' || isCJK c

/-- `FuzzySearchUtils.preprocess_query` (fuzzy_search.py:27-56),
fallback (non-jieba) path: lower-case, turn every character that is
neither a word character nor whitespace into a space, split on
whitespace, and keep terms of length ≥ 3 plus length-2 terms that
contain a CJK codepoint.  (The jieba branch is only taken when the
query contains CJK and the external segmentation library is importable;
all queries in this development are ASCII.) -/
def preprocessQuery (query : String) : List String :=
  let cleaned := String.mk ((pyLower query).toList.map
    (fun c => if isWordChar c || isPySpace c then c else ' '))
  (pySplit cleaned).filter
    (fun t => t.length > 2 || (t.length == 2 && t.toList.any isCJK))

/-- `sep.join(pieces)` (Python `str.join`). -/
def joinWith (sep : String) : List String → String
  | [] => ""
  | [x] => x
  | x :: y :: rest => x ++ sep ++ joinWith sep (y :: rest)

/-- `term[:i]` (Python slicing, i.e. the first `i` characters). -/
def strTake (s : String) (i : Nat) : String :=
  String.mk (s.toList.take i)

/-- `FuzzySearchUtils.build_fts_query` (fuzzy_search.py:58-93): each
term becomes the group `(t OR t*)`, extended with progressive prefixes
`t[:i]*` (2 ≤ i < len t) when the term contains CJK and is longer than
one character; groups are joined with ` AND `. -/
def buildFtsQuery (terms : List String) : String :=
  if terms = [] then ""
  else
    joinWith " AND " (terms.map (fun term =>
      let variations := [term, term ++ "*"] ++
        (if term.length > 1 && term.toList.any isCJK then
          ((List.range term.length).filter (fun i => 2 ≤ i)).map
            (fun i => strTake term i ++ "*")
        else [])
      "(" ++ joinWith " OR " variations ++ ")"))

/-- A fuzzy search hit as returned by `SearchManager.search_fuzzy`:
the candidate's metadata row enriched with `fuzzy_score`,
`fuzzy_method` and `fuzzy_highlight`, the full content removed. -/
structure FuzzyResult where
  row : ResultRow
  fuzzy_score : ℚ
  fuzzy_method : String
  fuzzy_highlight : String
  deriving Repr, DecidableEq

/-- `SearchManager.search_fuzzy` (search_manager.py:113-174).

`scorer q content` abstracts
`FuzzySearchUtils.calculate_best_similarity` (RapidFuzz, external) and
`highlighter q content` abstracts `FuzzySearchUtils.highlight_matches`.
Stage 1 preprocesses the query, builds the FTS expression, and fetches
candidates with `db.search_exact(fts_query, min(limit*5, 1000))` — the
LIKE-based search, not `search_fts5`.  Stage 2 keeps candidates whose
stored content is non-empty, scores them, drops scores below
`min_score`, sorts by score descending (stably), truncates to `limit`,
attaches the highlight, and deletes the content field. -/
def searchFuzzy (scorer : String → String → ℚ × String)
    (highlighter : String → String → String) (db : DB) (query : String)
    (limit : Nat) (minScore : ℚ) : List FuzzyResult :=
  let terms := preprocessQuery query
  if terms = [] then []
  else
    let ftsQuery := buildFtsQuery terms
    let candidateLimit := min (limit * 5) 1000
    let candidates := searchExact db ftsQuery candidateLimit none
    if candidates = [] then []
    else
      let enhanced := candidates.filterMap (fun c =>
        match getDocumentContent db c.file_path with
        | some content => if content = "" then none else some (c, content)
        | none => none)
      let scored := enhanced.filterMap (fun p =>
        let sm := scorer query p.2
        if minScore ≤ sm.1 then some (p.1, p.2, sm.1, sm.2) else none)
      let ranked := sortByKey (fun a b => b.2.2.1 ≤ a.2.2.1) scored
      (ranked.take limit).map (fun r =>
        ⟨r.1, r.2.2.1, r.2.2.2, highlighter query r.2.1⟩)

/-! ## Search manager dispatch (core/search_manager.py) -/

/-- An element of the unified `results` list of `SearchManager.search`:
exact/boolean/path rows carry no fuzzy fields, fuzzy rows do. -/
inductive UnifiedRow where
  | plain (r : ResultRow)
  | pathHit (r : PathRow)
  | fuzzy (r : FuzzyResult)
  deriving Repr, DecidableEq

/-- The dictionary returned by `SearchManager.search`.  Fields absent
from a given dictionary (`query` and friends in `_error_result`) are
`none`; the wall-clock `search_time` is external and omitted. -/
structure SearchResponse where
  success : Bool
  query : Option String
  search_type : Option String
  results : List UnifiedRow
  total_results : Nat
  limit : Option Nat
  error : Option String
  deriving Repr, DecidableEq

/-- `SearchManager._empty_result` (search_manager.py:359-369). -/
def emptyResult : SearchResponse :=
  ⟨true, some "", some "none", [], 0, some 0, none⟩

/-- `SearchManager._error_result` (search_manager.py:371-379). -/
def errorResult (msg : String) : SearchResponse :=
  ⟨false, none, none, [], 0, none, some msg⟩

/-- `SearchManager.search` (search_manager.py:39-83): empty stripped
query short-circuits to the empty result; otherwise dispatch on the
search type — `exact` and `boolean` both run `db.search_exact`, `fuzzy`
runs the two-stage pipeline, `path` runs `db.search_path`, and every
other type (including `hybrid`) yields
`_error_result("Unsupported search type: ...")`. -/
def managerSearch (scorer : String → String → ℚ × String)
    (highlighter : String → String → String) (db : DB) (query : String)
    (searchType : String) (limit : Nat) (minScore : ℚ) : SearchResponse :=
  if pyStrip query = "" then emptyResult
  else
    let ok (rs : List UnifiedRow) : SearchResponse :=
      ⟨true, some query, some searchType, rs, rs.length, some limit, none⟩
    if searchType = "exact" then
      ok ((searchExact db query limit none).map UnifiedRow.plain)
    else if searchType = "boolean" then
      ok ((searchExact db query limit none).map UnifiedRow.plain)
    else if searchType = "fuzzy" then
      ok ((searchFuzzy scorer highlighter db query limit minScore).map
        UnifiedRow.fuzzy)
    else if searchType = "path" then
      ok ((searchPath db query limit none).map UnifiedRow.pathHit)
    else errorResult ("Unsupported search type: " ++ searchType)

/-! ## Scanned-PDF detection (parsers/pdf_parser.py) -/

/-- One image on a PDF page: the display-bbox area when
`page.get_image_bbox` succeeds and returns a non-empty rectangle,
`none` when it raises or the bbox is falsy (that image is skipped). -/
structure PdfImage where
  bboxArea : Option ℚ
  deriving Repr, DecidableEq

/-- One sampled PDF page: `len(page.get_text().strip())`, the image
list, and the page rectangle's area. -/
structure PdfPage where
  textLen : Nat
  images : List PdfImage
  pageArea : ℚ
  deriving Repr, DecidableEq

/-- `PDFParser._is_scanned_pdf` (pdf_parser.py:184-249).  A document
with no pages is scanned.  Otherwise the first `min(3, pages)` pages
are sampled; if any image's bbox covers more than half its page the
loop returns `True` early (the accumulated counters are unused on that
path, so the early return is hoisted to an `any`).  Then:
total text `< 50` → `True`; images present and
`total / pages_to_check < 100` → `True` (the float division is exact
enough on these magnitudes that it coincides with
`total < 100 * pages_to_check`); else `False`. -/
def isScannedPdf (pages : List PdfPage) : Bool :=
  if pages.length = 0 then true
  else
    let pagesToCheck := min 3 pages.length
    let sampled := pages.take pagesToCheck
    if sampled.any (fun pg => pg.images.any (fun im =>
        match im.bboxArea with
        | some a => decide (pg.pageArea * (1/2 : ℚ) < a)
        | none => false)) then true
    else
      let totalTextChars := (sampled.map (fun pg => pg.textLen)).sum
      let totalImageCount := (sampled.map (fun pg => pg.images.length)).sum
      if totalTextChars < 50 then true
      else if 0 < totalImageCount && totalTextChars < 100 * pagesToCheck then
        true
      else false

/-! ## Helper lemmas on the sorting and filtering plumbing -/

theorem mem_insertSorted (le : α → α → Bool) (x : α) (l : List α) (a : α) :
    a ∈ insertSorted le x l ↔ a = x ∨ a ∈ l := by
  induction l with
  | nil => simp [insertSorted]
  | cons y ys ih =>
      simp only [insertSorted]
      split
      · simp
      · simp only [List.mem_cons, ih]
        tauto

theorem mem_sortByKey (le : α → α → Bool) (l : List α) (a : α) :
    a ∈ sortByKey le l ↔ a ∈ l := by
  induction l with
  | nil => simp [sortByKey]
  | cons x xs ih => simp [sortByKey, mem_insertSorted, ih]

theorem length_insertSorted (le : α → α → Bool) (x : α) (l : List α) :
    (insertSorted le x l).length = l.length + 1 := by
  induction l with
  | nil => simp [insertSorted]
  | cons y ys ih =>
      simp only [insertSorted]
      split
      · simp
      · simp [ih]

theorem length_sortByKey (le : α → α → Bool) (l : List α) :
    (sortByKey le l).length = l.length := by
  induction l with
  | nil => rfl
  | cons x xs ih => simp [sortByKey, length_insertSorted, ih]

/-- In a list whose elements have pairwise distinct `filePath`s, two
members with the same path are the same row. -/
theorem eq_of_pairwise_path {l : List MetaRow}
    (hl : l.Pairwise (fun a b => a.filePath ≠ b.filePath))
    {a b : MetaRow} (ha : a ∈ l) (hb : b ∈ l)
    (hab : a.filePath = b.filePath) : a = b := by
  induction l with
  | nil => cases ha
  | cons x xs ih =>
      rcases List.pairwise_cons.mp hl with ⟨hx, hxs⟩
      rcases List.mem_cons.mp ha with rfl | ha' <;>
        rcases List.mem_cons.mp hb with rfl | hb'
      · rfl
      · exact absurd hab (hx _ hb')
      · exact absurd hab.symm (hx _ ha')
      · exact ih hxs ha' hb'

/-- Removing the rows that share a member's `docId` from a list with
pairwise distinct `docId`s removes exactly that member. -/
theorem length_filter_ne_docId {l : List MetaRow}
    (hl : l.Pairwise (fun a b => a.docId ≠ b.docId)) {a : MetaRow}
    (ha : a ∈ l) :
    (l.filter (fun r => r.docId ≠ a.docId)).length + 1 = l.length := by
  induction l with
  | nil => cases ha
  | cons x xs ih =>
      rcases List.pairwise_cons.mp hl with ⟨hx, hxs⟩
      rcases List.mem_cons.mp ha with rfl | ha'
      · have hxf : xs.filter (fun r => r.docId ≠ a.docId) = xs := by
          refine List.filter_eq_self.mpr (fun b hb => ?_)
          simpa using (hx b hb).symm
        simp only [List.filter_cons]
        rw [if_neg (by simp), hxf, List.length_cons]
      · have hxa : x.docId ≠ a.docId := hx a ha'
        have hlen := ih hxs ha'
        simp only [List.filter_cons]
        rw [if_pos (by simpa using hxa)]
        simp only [List.length_cons]
        omega

theorem optCheck_eq_true_iff (o : Option α) (f : α → Bool) :
    optCheck o f = true ↔ ∀ x ∈ o, f x = true := by
  cases o <;> simp [optCheck]

/-! ## Concrete stores used by counterexamples and evaluations -/

/-- A store holding one document whose body contains both query
tokens of the fuzzy-search scenario verbatim. -/
def dbFuzzy : DB :=
  ⟨[⟨1, "doc1.txt", "h1", 27, 0, 0, 5, "txt"⟩],
    [⟨1, "python programming is great"⟩], 2⟩

/-- A store holding one already-indexed document at `a.txt` with
doc_id 1 and a non-empty full-text entry. -/
def dbReplace : DB :=
  ⟨[⟨1, "a.txt", "h1", 10, 0, 0, 5, "txt"⟩], [⟨1, "old content"⟩], 2⟩

/-- Filesystem facts for re-adding `a.txt` after its bytes changed. -/
def infoReplace : FileInfo := ⟨"h2", 10, 0, 0, 6⟩

/-- A store holding one document whose body is `axxb`. -/
def dbWild : DB :=
  ⟨[⟨1, "c4.txt", "h1", 4, 0, 0, 5, "txt"⟩], [⟨1, "axxb"⟩], 2⟩

/-- A store holding one markdown document matching `quick`. -/
def dbMd : DB :=
  ⟨[⟨1, "a.md", "h1", 9, 0, 0, 5, "md"⟩], [⟨1, "quick fox"⟩], 2⟩

/-! ## Claim theorems -/

/-- C1: the claim says Stage 1 of fuzzy search queries the inverted
index with the MATCH operator, candidates ordered by native rank.  In
the code (`search_manager.py:142`) the FTS expression built from the
preprocessed tokens is instead handed to the LIKE-based
`search_exact`, whose AND-of-substrings treatment of the expression
text matches (essentially) nothing: against a store whose single
document's body contains both tokens verbatim — a body plain
`search_exact` on the raw query does find — the fuzzy pipeline
produces zero candidates and returns `[]` for every scorer,
highlighter and threshold. -/
theorem fuzzy_stage1_uses_like_search :
    (∀ (scorer : String → String → ℚ × String)
      (highlighter : String → String → String) (minScore : ℚ),
      searchFuzzy scorer highlighter dbFuzzy "python programming" 5 minScore
        = []) ∧
    buildFtsQuery (preprocessQuery "python programming") =
      "(python OR python*) AND (programming OR programming*)" ∧
    (searchExact dbFuzzy "python programming" 5 none).map
      (fun r => r.file_path) = ["doc1.txt"] ∧
    searchExact dbFuzzy
      "(python OR python*) AND (programming OR programming*)" 25 none = [] :=
  ⟨fun _ _ _ => rfl, by decide, by decide, by decide⟩

/-- C5: the claim says the unified search with `type = hybrid`
succeeds and combines the exact, fuzzy and path runs.  The dispatcher
in `SearchManager.search` (search_manager.py:59-68) has no hybrid
branch: `hybrid` falls through to
`_error_result("Unsupported search type: hybrid")`, for every store,
limit, threshold and scoring oracle. -/
theorem search_hybrid_unsupported (scorer : String → String → ℚ × String)
    (highlighter : String → String → String) (db : DB) (limit : Nat)
    (minScore : ℚ) :
    managerSearch scorer highlighter db "quick" "hybrid" limit minScore =
      errorResult "Unsupported search type: hybrid" := rfl

/-- C2 counterexample: re-adding the already-indexed path `a.txt`
(doc_id 1) with an empty body succeeds, but the metadata row comes
back with the fresh doc_id 2 — `INSERT OR REPLACE` deletes the old
row and auto-assigns a new rowid — and the prior full-text entry,
keyed by the old doc_id 1, is still present (the `DELETE FROM
docs_fts` targets the new rowid only). -/
theorem add_replace_changes_id_cex :
    (addDocument dbReplace "a.txt" "" "txt" infoReplace).1 = true ∧
    ((addDocument dbReplace "a.txt" "" "txt" infoReplace).2.meta.map
      (fun m => m.docId)) = [2] ∧
    (addDocument dbReplace "a.txt" "" "txt" infoReplace).2.fts =
      [⟨1, "old content"⟩] := by decide

/-- C4 counterexample: for the query `a%b` against the body `axxb`,
`search_exact` returns the document because the keyword is
interpolated into a `LIKE` pattern where `%` is a wildcard, although
`a%b` is not a substring of the (lowercased) body — so the result is
not the set of documents containing every token as a substring. -/
theorem search_exact_like_wildcard_cex :
    pySplit (pyLower "a%b") = ["a%b"] ∧
    (searchExact dbWild "a%b" 10 none).map (fun r => r.file_path) =
      ["c4.txt"] ∧
    strContains (pyLower "axxb") (pyLower "a%b") = false := by decide

/-- C6 counterexample: when the MATCH query fails against a store
holding one markdown document with body `quick fox`, `search_fts5`
with the filter `file_types = ["txt"]` returns that markdown document
— the fallback call `self.search_exact(query, limit)` drops the
file-type filter — whereas `search_exact` with the same query, limit
and filter returns nothing. -/
theorem fts5_fallback_drops_file_types_cex :
    (searchFts5 (fun _ => none) dbMd "quick" 10 (some ["txt"])).map
      (fun r => r.file_path) = ["a.md"] ∧
    searchExact dbMd "quick" 10 (some ["txt"]) = [] := by decide

/-- C6 amended: whenever the inverted (MATCH) query fails,
`search_fts5` returns exactly `search_exact` applied to the same query
and limit but without the file-type filter. -/
theorem fts5_fallback_no_type_filter
    (oracle : String → Option (List FtsRow)) (db : DB) (query : String)
    (limit : Nat) (fileTypes : Option (List String))
    (h : oracle query = none) :
    searchFts5 oracle db query limit fileTypes =
      searchExact db query limit none := by
  simp [searchFts5, h]

/-- Witness for the C6 amended theorem at a concrete failing oracle. -/
theorem fts5_fallback_no_type_filter_witness :
    searchFts5 (fun _ => none) dbMd "quick" 10 (some ["txt"]) =
      searchExact dbMd "quick" 10 none :=
  fts5_fallback_no_type_filter (fun _ => none) dbMd "quick" 10
    (some ["txt"]) rfl

/-- C9: the scanned-PDF detector returns `true` whenever the total
text character count over the sampled pages (the first
`min(3, pages)`) is below 50, or at least one image is present in the
sample and the average text per sampled page is below 100. -/
theorem scanned_pdf_text_thresholds (pages : List PdfPage)
    (h : ((pages.take (min 3 pages.length)).map
            (fun pg => pg.textLen)).sum < 50 ∨
         (0 < ((pages.take (min 3 pages.length)).map
            (fun pg => pg.images.length)).sum ∧
          ((pages.take (min 3 pages.length)).map
            (fun pg => pg.textLen)).sum < 100 * min 3 pages.length)) :
    isScannedPdf pages = true := by
  simp only [isScannedPdf]
  split
  · rfl
  · split
    · rfl
    · split
      · rfl
      · split
        · rfl
        · rcases h with h | ⟨h1, h2⟩
          · rename_i hno50 _
            exact absurd h hno50
          · rename_i hno
            exact absurd
              (by simp only [Bool.and_eq_true, decide_eq_true_eq]; exact ⟨h1, h2⟩)
              hno

/-- Witness for C9: a single page with 30 text characters and no
images is detected as scanned. -/
theorem scanned_pdf_text_thresholds_witness :
    isScannedPdf [⟨30, [], 100⟩] = true :=
  scanned_pdf_text_thresholds [⟨30, [], 100⟩] (Or.inl (by decide))

/-- Membership in the filter/sort/truncate/project pipeline shared by
`search_path` and `search_by_metadata`, in the untruncated regime. -/
theorem mem_meta_pipeline (le : MetaRow → MetaRow → Bool)
    (P : MetaRow → Bool) (l : List MetaRow) (n : Nat)
    (hfit : (l.filter P).length ≤ n) (r : PathRow) :
    r ∈ ((sortByKey le (l.filter P)).take n).map pathRowOfMeta ↔
      ∃ m ∈ l, P m = true ∧ pathRowOfMeta m = r := by
  rw [List.take_of_length_le (by rw [length_sortByKey]; exact hfit)]
  simp only [List.mem_map, mem_sortByKey, List.mem_filter]
  constructor
  · rintro ⟨m', ⟨hm', hP⟩, hr⟩
    exact ⟨m', hm', hP, hr⟩
  · rintro ⟨m', hm', hP, hr⟩
    exact ⟨m', ⟨hm', hP⟩, hr⟩

/-- The WHERE clause of `search_by_metadata`, read attribute by
attribute: sizes against `file_size`, creation bounds against
`file_created`, the `modified_after`/`modified_before` bounds against
`last_indexed` (the indexing timestamp — not `file_modified`). -/
theorem metadataPred_eq_true_iff (minS maxS : Option Nat)
    (cA cB mA mB : Option Int) (F : Option (List String)) (m : MetaRow) :
    metadataPred minS maxS cA cB mA mB F m = true ↔
      ((∀ s ∈ minS, s ≤ m.fileSize) ∧ (∀ s ∈ maxS, m.fileSize ≤ s) ∧
       (∀ t ∈ cA, t ≤ m.fileCreated) ∧ (∀ t ∈ cB, m.fileCreated ≤ t) ∧
       (∀ t ∈ mA, t ≤ m.lastIndexed) ∧ (∀ t ∈ mB, m.lastIndexed ≤ t) ∧
       typeFilter F m.fileType = true) := by
  simp only [metadataPred, Bool.and_eq_true, optCheck_eq_true_iff,
    decide_eq_true_eq, and_assoc]

/-- C10: in the untruncated regime, `search_by_metadata` retains a
document iff each supplied range bound holds of its named attribute,
where the `modified_after` / `modified_before` bounds are evaluated
against `last_indexed` (the indexing timestamp), not against the
file's modification time, while the size and creation bounds filter on
`file_size` and `file_created`. -/
theorem metadata_filters_on_last_indexed (db : DB)
    (minS maxS : Option Nat) (cA cB mA mB : Option Int)
    (F : Option (List String)) (n : Nat) (m : MetaRow) (hm : m ∈ db.meta)
    (hpaths : db.meta.Pairwise (fun a b => a.filePath ≠ b.filePath))
    (hfit : (db.meta.filter
      (metadataPred minS maxS cA cB mA mB F)).length ≤ n) :
    (∃ r ∈ searchByMetadata db minS maxS cA cB mA mB F n,
        r.file_path = m.filePath) ↔
      ((∀ s ∈ minS, s ≤ m.fileSize) ∧ (∀ s ∈ maxS, m.fileSize ≤ s) ∧
       (∀ t ∈ cA, t ≤ m.fileCreated) ∧ (∀ t ∈ cB, m.fileCreated ≤ t) ∧
       (∀ t ∈ mA, t ≤ m.lastIndexed) ∧ (∀ t ∈ mB, m.lastIndexed ≤ t) ∧
       typeFilter F m.fileType = true) := by
  rw [← metadataPred_eq_true_iff]
  constructor
  · rintro ⟨r, hr, hrpath⟩
    rw [searchByMetadata] at hr
    rcases (mem_meta_pipeline _ _ _ _ hfit r).mp hr with ⟨m', hm', hP, hrow⟩
    have hpe : m'.filePath = m.filePath := by
      rw [← hrpath, ← hrow]; rfl
    rwa [eq_of_pairwise_path hpaths hm' hm hpe] at hP
  · intro hP
    exact ⟨pathRowOfMeta m,
      by
        rw [searchByMetadata]
        exact (mem_meta_pipeline _ _ _ _ hfit _).mpr ⟨m, hm, hP, rfl⟩,
      rfl⟩

/-- A store whose single document was modified (mtime) at 0 but
indexed at 100. -/
def dbStale : DB := ⟨[⟨1, "w.txt", "h1", 10, 0, 0, 100, "txt"⟩], [], 2⟩

/-- Witness for C10: with `modified_after = 50`, the document whose
`file_modified` is 0 but whose `last_indexed` is 100 is retained — the
range predicate reads the indexing timestamp. -/
theorem metadata_filters_on_last_indexed_witness :
    ∃ r ∈ searchByMetadata dbStale none none none none (some 50) none none
      10, r.file_path = "w.txt" :=
  (metadata_filters_on_last_indexed dbStale none none none none (some 50)
    none none 10 ⟨1, "w.txt", "h1", 10, 0, 0, 100, "txt"⟩ (by decide)
    (by simp [dbStale]) (by decide)).mpr (by simp [typeFilter])

/-- C2 amended: a successful `add(p, b, t)` on a path already present
gives the metadata row a fresh rowid (`INSERT OR REPLACE` retires the
old id rather than reusing it); the full-text table afterwards holds
an entry under the document's new id iff `b` is non-empty; and every
prior full-text entry — including the one keyed by the retired id —
is left in place, merely unreachable through the metadata join. -/
theorem add_replace_fresh_id (db : DB) (p b t : String) (info : FileInfo)
    (hwf : WF db) (_hp : ∃ m0 ∈ db.meta, m0.filePath = p)
    (hh : info.fileHash ≠ "") :
    (addDocument db p b t info).1 = true ∧
    (∀ m ∈ (addDocument db p b t info).2.meta,
      m.filePath = p → m.docId = db.nextId) ∧
    (∀ m0 ∈ db.meta, m0.filePath = p → m0.docId ≠ db.nextId) ∧
    ((∃ f ∈ (addDocument db p b t info).2.fts, f.docId = db.nextId) ↔
      b ≠ "") ∧
    (∀ f ∈ db.fts, f ∈ (addDocument db p b t info).2.fts) := by
  obtain ⟨hfts, hmeta, -, -⟩ := hwf
  have hadd : addDocument db p b t info =
      (true,
        ⟨db.meta.filter (fun m => m.filePath ≠ p) ++
          [⟨db.nextId, p, info.fileHash, info.fileSize, info.fileCreated,
            info.fileModified, info.now, t⟩],
          (if b ≠ "" then db.fts ++ [⟨db.nextId, b⟩]
           else db.fts.filter (fun f => f.docId ≠ db.nextId)),
          db.nextId + 1⟩) := by
    rw [addDocument, if_neg hh]
  rw [hadd]
  dsimp only
  refine ⟨rfl, ?_, ?_, ?_, ?_⟩
  · intro m hm hmp
    rcases List.mem_append.mp hm with hm' | hm'
    · exact absurd hmp (by simpa using (List.mem_filter.mp hm').2)
    · rw [List.mem_singleton.mp hm']
  · intro m0 hm0 _
    exact Nat.ne_of_lt (hmeta m0 hm0)
  · by_cases hb : b = ""
    · rw [if_neg (not_not_intro hb)]
      constructor
      · rintro ⟨f, hf, hfd⟩
        exact absurd hfd (by simpa using (List.mem_filter.mp hf).2)
      · intro hbne
        exact absurd hb hbne
    · rw [if_pos hb]
      exact ⟨fun _ => hb,
        fun _ => ⟨⟨db.nextId, b⟩,
          List.mem_append_right _ (List.mem_singleton.mpr rfl), rfl⟩⟩
  · intro f hf
    by_cases hb : b = ""
    · rw [if_neg (not_not_intro hb)]
      refine List.mem_filter.mpr ⟨hf, ?_⟩
      have := hfts f hf
      simp only [ne_eq, decide_eq_true_eq]
      omega
    · rw [if_pos hb]
      exact List.mem_append_left _ hf

/-- Witness for the C2 amended theorem: replacing `a.txt` (old id 1)
with body `x` on the two-row store. -/
theorem add_replace_fresh_id_witness :
    (addDocument dbReplace "a.txt" "x" "txt" infoReplace).1 = true ∧
    (∀ m ∈ (addDocument dbReplace "a.txt" "x" "txt" infoReplace).2.meta,
      m.filePath = "a.txt" → m.docId = dbReplace.nextId) ∧
    (∀ m0 ∈ dbReplace.meta,
      m0.filePath = "a.txt" → m0.docId ≠ dbReplace.nextId) ∧
    ((∃ f ∈ (addDocument dbReplace "a.txt" "x" "txt" infoReplace).2.fts,
      f.docId = dbReplace.nextId) ↔ ("x" : String) ≠ "") ∧
    (∀ f ∈ dbReplace.fts,
      f ∈ (addDocument dbReplace "a.txt" "x" "txt" infoReplace).2.fts) :=
  add_replace_fresh_id dbReplace "a.txt" "x" "txt" infoReplace
    (by simp [WF, dbReplace])
    ⟨⟨1, "a.txt", "h1", 10, 0, 0, 5, "txt"⟩, by decide, rfl⟩ (by decide)

/-- After `add(p, b, t, info)` on a well-formed store, the join's
meta-side membership test used by `get_document_content` for path `p`
holds of an FTS row exactly when it carries the fresh rowid. -/
theorem any_meta_after_add (db : DB) (p t : String) (info : FileInfo)
    (f : FtsRow) :
    ((db.meta.filter (fun m => m.filePath ≠ p) ++
      ([⟨db.nextId, p, info.fileHash, info.fileSize, info.fileCreated,
        info.fileModified, info.now, t⟩] : List MetaRow)).any
        (fun m => m.docId == f.docId && m.filePath == p))
      = (db.nextId == f.docId) := by
  rw [List.any_append]
  have h1 : (db.meta.filter (fun m => m.filePath ≠ p)).any
      (fun m => m.docId == f.docId && m.filePath == p) = false := by
    rw [List.any_eq_false]
    intro m hm
    have hmp : ¬ m.filePath = p := by simpa using (List.mem_filter.mp hm).2
    simp [hmp]
  rw [h1]
  simp

/-- C3: after a successful `add(p, b, t)`, `get_body(p)` returns
exactly `b` when `b` is non-empty and nothing when `b` is empty —
including when `p` was previously indexed with a different body
(the fresh rowid makes the old full-text entry unreachable through
the join, and the old metadata row is replaced). -/
theorem add_get_body_roundtrip (db : DB) (p b t : String) (info : FileInfo)
    (hwf : WF db) (hh : info.fileHash ≠ "") :
    (addDocument db p b t info).1 = true ∧
    getDocumentContent ((addDocument db p b t info).2) p =
      (if b = "" then none else some b) := by
  obtain ⟨hfts, -, -, -⟩ := hwf
  have hadd : addDocument db p b t info =
      (true,
        ⟨db.meta.filter (fun m => m.filePath ≠ p) ++
          [⟨db.nextId, p, info.fileHash, info.fileSize, info.fileCreated,
            info.fileModified, info.now, t⟩],
          (if b ≠ "" then db.fts ++ [⟨db.nextId, b⟩]
           else db.fts.filter (fun f => f.docId ≠ db.nextId)),
          db.nextId + 1⟩) := by
    rw [addDocument, if_neg hh]
  rw [hadd]
  refine ⟨rfl, ?_⟩
  rw [getDocumentContent]
  by_cases hb : b = ""
  · rw [if_pos hb, if_neg (not_not_intro hb)]
    rw [List.filter_congr (fun f _ => any_meta_after_add db p t info f)]
    have hnil : (db.fts.filter (fun f => f.docId ≠ db.nextId)).filter
        (fun f => db.nextId == f.docId) = [] := by
      rw [List.filter_eq_nil_iff]
      intro f hf
      have hne : ¬ f.docId = db.nextId := by
        simpa using (List.mem_filter.mp hf).2
      simp only [beq_iff_eq]
      exact fun hcon => hne hcon.symm
    rw [hnil]
    rfl
  · rw [if_neg hb, if_pos hb]
    rw [List.filter_congr (fun f _ => any_meta_after_add db p t info f)]
    rw [List.filter_append]
    have hnil : db.fts.filter (fun f => db.nextId == f.docId) = [] := by
      rw [List.filter_eq_nil_iff]
      intro f hf
      have hlt := hfts f hf
      simp only [beq_iff_eq]
      omega
    rw [hnil]
    simp

theorem list_any_congr {l : List α} {p q : α → Bool}
    (h : ∀ a ∈ l, p a = q a) : l.any p = l.any q := by
  induction l with
  | nil => rfl
  | cons x xs ih =>
      simp only [List.any_cons, h x (by simp),
        ih (fun a ha => h a (by simp [ha]))]

/-- The row-rewriting function applied to `docs_meta` by
`update_file_path`'s UPDATE statement. -/
def renameRow (oldPath newPath : String) (m : MetaRow) : MetaRow :=
  if m.filePath == oldPath then { m with filePath := newPath } else m

/-- C8: renaming an indexed document to a fresh path succeeds and
changes only that document's stored path: the body read through the
new path is the body previously read through the old one, the old path
reads back nothing, the renamed row keeps every other field, all other
rows and the whole full-text table are untouched; a subsequent
`remove(new)` then succeeds, leaves no metadata row under the new path
and no full-text row under the document's id, and decreases
`stats().document_count` by exactly one. -/
theorem rename_then_remove_frame (db : DB) (oldPath newPath : String)
    (m0 : MetaRow) (hwf : WF db) (hm0 : m0 ∈ db.meta)
    (hold : m0.filePath = oldPath)
    (hfresh : ∀ m ∈ db.meta, m.filePath ≠ newPath) :
    (updateFilePath db oldPath newPath).1 = true ∧
    getDocumentContent (updateFilePath db oldPath newPath).2 newPath =
      getDocumentContent db oldPath ∧
    getDocumentContent (updateFilePath db oldPath newPath).2 oldPath =
      none ∧
    { m0 with filePath := newPath } ∈
      (updateFilePath db oldPath newPath).2.meta ∧
    (∀ m ∈ db.meta, m.filePath ≠ oldPath →
      m ∈ (updateFilePath db oldPath newPath).2.meta) ∧
    (updateFilePath db oldPath newPath).2.fts = db.fts ∧
    (removeDocument (updateFilePath db oldPath newPath).2 newPath).1 =
      true ∧
    (∀ m ∈ (removeDocument
        (updateFilePath db oldPath newPath).2 newPath).2.meta,
      m.filePath ≠ newPath) ∧
    (∀ f ∈ (removeDocument
        (updateFilePath db oldPath newPath).2 newPath).2.fts,
      f.docId ≠ m0.docId) ∧
    (getStats (removeDocument
        (updateFilePath db oldPath newPath).2 newPath).2).document_count
      + 1 = (getStats db).document_count := by
  obtain ⟨hfts, hmeta, hpaths, hids⟩ := hwf
  have hne : oldPath ≠ newPath := fun h => hfresh m0 hm0 (hold.trans h)
  have hupd : updateFilePath db oldPath newPath =
      (true, ⟨db.meta.map (renameRow oldPath newPath), db.fts, db.nextId⟩) := by
    rw [updateFilePath]
    rw [if_pos (List.any_eq_true.mpr ⟨m0, hm0, by simp [hold]⟩)]
    rw [if_neg ?_]
    · rfl
    · intro hcon
      rcases List.any_eq_true.mp hcon with ⟨m, hm, hmm⟩
      simp only [Bool.and_eq_true, beq_iff_eq] at hmm
      exact hfresh m hm hmm.1
  rw [hupd]
  dsimp only
  -- the meta-side join test through the renamed table, per FTS row
  have hanyNew : ∀ f : FtsRow,
      ((db.meta.map (renameRow oldPath newPath)).any
        (fun m => m.docId == f.docId && m.filePath == newPath)) =
      (db.meta.any (fun m => m.docId == f.docId && m.filePath == oldPath)) := by
    intro f
    rw [List.any_map]
    refine list_any_congr (fun m hm => ?_)
    by_cases hc : m.filePath == oldPath
    · simp [Function.comp, renameRow, hc]
    · have : ¬ m.filePath = newPath := hfresh m hm
      simp [Function.comp, renameRow, hc, this]
  have hanyOld : ∀ f : FtsRow,
      ((db.meta.map (renameRow oldPath newPath)).any
        (fun m => m.docId == f.docId && m.filePath == oldPath)) = false := by
    intro f
    rw [List.any_map]
    rw [List.any_eq_false]
    intro m _
    by_cases hc : m.filePath == oldPath
    · simp [Function.comp, renameRow, hc, (Ne.symm hne)]
    · simp [Function.comp, renameRow, hc]
  have hrenMem : { m0 with filePath := newPath } ∈
      db.meta.map (renameRow oldPath newPath) :=
    List.mem_map.mpr ⟨m0, hm0, by simp [renameRow, hold]⟩
  -- the remove step: locate the row found by its SELECT
  have hfind : ∃ r, (db.meta.map (renameRow oldPath newPath)).find?
      (fun m => m.filePath == newPath) = some r := by
    cases hf : (db.meta.map (renameRow oldPath newPath)).find?
        (fun m => m.filePath == newPath) with
    | none =>
        exact absurd (by simp)
          (List.find?_eq_none.mp hf _ hrenMem)
    | some r => exact ⟨r, rfl⟩
  rcases hfind with ⟨r, hr⟩
  have hrMem : r ∈ db.meta.map (renameRow oldPath newPath) :=
    List.mem_of_find?_eq_some hr
  have hrPath : r.filePath = newPath := by
    simpa using List.find?_some hr
  -- any row of the renamed table carrying the new path is the renamed m0
  have huniq : ∀ m', m' ∈ db.meta.map (renameRow oldPath newPath) →
      m'.filePath = newPath → m' = { m0 with filePath := newPath } := by
    intro m' hm' hp'
    rcases List.mem_map.mp hm' with ⟨m, hm, hmr⟩
    by_cases hc : m.filePath == oldPath
    · have hmo : m.filePath = oldPath := by simpa using hc
      have : m = m0 :=
        eq_of_pairwise_path hpaths hm hm0 (hmo.trans hold.symm)
      rw [← hmr, renameRow, if_pos hc, this]
    · have hm'm : m' = m := by rw [← hmr, renameRow, if_neg hc]
      rw [hm'm] at hp'
      exact absurd hp' (hfresh m hm)
  have hrEq : r = { m0 with filePath := newPath } := huniq r hrMem hrPath
  have hrDoc : r.docId = m0.docId := by rw [hrEq]
  have hrem : removeDocument
      ⟨db.meta.map (renameRow oldPath newPath), db.fts, db.nextId⟩ newPath =
      (true,
        ⟨(db.meta.map (renameRow oldPath newPath)).filter
            (fun x => x.docId ≠ r.docId),
          db.fts.filter (fun x => x.docId ≠ r.docId), db.nextId⟩) := by
    rw [removeDocument]
    rw [hr]
  refine ⟨rfl, ?_, ?_, hrenMem, ?_, rfl, ?_, ?_, ?_, ?_⟩
  · -- body through the new path = prior body through the old path
    rw [getDocumentContent, getDocumentContent]
    rw [List.filter_congr (fun f _ => hanyNew f)]
  · -- the old path reads back nothing
    rw [getDocumentContent]
    rw [List.filter_congr (fun f _ => hanyOld f)]
    simp
  · -- frame: untouched rows survive verbatim
    intro m hm hmo
    refine List.mem_map.mpr ⟨m, hm, ?_⟩
    rw [renameRow, if_neg (by simpa using hmo)]
  · -- remove succeeds
    rw [hrem]
  · -- no metadata row under the new path remains
    rw [hrem]
    dsimp only
    intro m hm hmp
    have hm' := List.mem_filter.mp hm
    have : m = { m0 with filePath := newPath } := huniq m hm'.1 hmp
    have : m.docId = r.docId := by rw [this, hrEq]
    exact absurd this (by simpa using hm'.2)
  · -- no full-text row under the document's id remains
    rw [hrem]
    dsimp only
    intro f hf
    have hf' := List.mem_filter.mp hf
    rw [← hrDoc]
    simpa using hf'.2
  · -- the document count drops by exactly one
    rw [hrem]
    simp only [getStats]
    have hpw : (db.meta.map (renameRow oldPath newPath)).Pairwise
        (fun a b => a.docId ≠ b.docId) := by
      rw [List.pairwise_map]
      refine hids.imp ?_
      intro a b hab
      simp only [renameRow]
      split <;> split <;> exact hab
    have := length_filter_ne_docId hpw hrMem
    simpa [List.length_map] using this

/-- Witness for C8: rename `a.txt` to `a2.txt` on the one-document
store, then remove `a2.txt`. -/
theorem rename_then_remove_frame_witness :
    getDocumentContent (updateFilePath dbReplace "a.txt" "a2.txt").2
      "a2.txt" = getDocumentContent dbReplace "a.txt" ∧
    getDocumentContent (updateFilePath dbReplace "a.txt" "a2.txt").2
      "a.txt" = none ∧
    (removeDocument (updateFilePath dbReplace "a.txt" "a2.txt").2
      "a2.txt").1 = true ∧
    (getStats (removeDocument
      (updateFilePath dbReplace "a.txt" "a2.txt").2 "a2.txt").2
      ).document_count + 1 = (getStats dbReplace).document_count := by
  have h := rename_then_remove_frame dbReplace "a.txt" "a2.txt"
    ⟨1, "a.txt", "h1", 10, 0, 0, 5, "txt"⟩ (by simp [WF, dbReplace])
    (by decide) rfl (by decide)
  exact ⟨h.2.1, h.2.2.1, h.2.2.2.2.2.2.1, h.2.2.2.2.2.2.2.2.2⟩

/-- C4 amended: `search_exact` interprets each whitespace token of the
query as the SQLite pattern `LIKE '%token%'`, in which `%` and `_` are
wildcards and letters compare ASCII-case-insensitively (this coincides
with case-insensitive substring containment exactly when the token
carries no wildcard); a query with no tokens returns `[]` rather than
all documents; and within the limit the result is exactly the
documents whose full-text row passes every token's pattern, projected
to metadata-only records with no body field. -/
theorem search_exact_like_characterization (db : DB) (q : String)
    (n : Nat) (F : Option (List String)) :
    (pySplit q = [] → searchExact db q n F = []) ∧
    (∀ r ∈ searchExact db q n F,
      ∃ fm ∈ joinRows db, r = rowOfMeta fm.2 ∧
        exactPred (pySplit q) F fm = true) ∧
    (pySplit q ≠ [] →
      ((joinRows db).filter (exactPred (pySplit q) F)).length ≤ n →
      ∀ fm ∈ joinRows db, exactPred (pySplit q) F fm = true →
        rowOfMeta fm.2 ∈ searchExact db q n F) := by
  refine ⟨?_, ?_, ?_⟩
  · intro hq
    rw [searchExact, if_pos hq]
  · intro r hr
    rw [searchExact] at hr
    by_cases hq : pySplit q = []
    · rw [if_pos hq] at hr
      cases hr
    · rw [if_neg hq] at hr
      rcases List.mem_map.mp hr with ⟨fm, hfm, hrow⟩
      have h2 := List.mem_filter.mp (List.mem_of_mem_take hfm)
      exact ⟨fm, h2.1, hrow.symm, h2.2⟩
  · intro hq hfit fm hfm hpred
    rw [searchExact, if_neg hq]
    rw [List.take_of_length_le hfit]
    exact List.mem_map.mpr ⟨fm, List.mem_filter.mpr ⟨hfm, hpred⟩, rfl⟩

/-- Witness for the C4 amended theorem on the `axxb` store: the empty
query returns nothing, and the token `axx` (no wildcards, a substring)
retrieves the document's metadata projection. -/
theorem search_exact_like_characterization_witness :
    searchExact dbWild "" 5 none = [] ∧
    rowOfMeta ⟨1, "c4.txt", "h1", 4, 0, 0, 5, "txt"⟩ ∈
      searchExact dbWild "axx" 10 none :=
  ⟨(search_exact_like_characterization dbWild "" 5 none).1 (by decide),
   (search_exact_like_characterization dbWild "axx" 10 none).2.2
     (by decide) (by decide)
     (⟨1, "axxb"⟩, ⟨1, "c4.txt", "h1", 4, 0, 0, 5, "txt"⟩)
     (by decide) (by decide)⟩

/-- C7: when a parser succeeds with an empty body, `add` still inserts
the metadata row for the path; afterwards no `search_exact` query ever
returns that document (its fresh rowid has no full-text row to join
against), while a `search_path` query whose keywords all match the
path — within the limit and type filter — does return it. -/
theorem empty_body_metadata_only (db : DB) (p t : String) (info : FileInfo)
    (hwf : WF db) (hh : info.fileHash ≠ "") :
    (addDocument db p "" t info).1 = true ∧
    (∃ m ∈ (addDocument db p "" t info).2.meta, m.filePath = p) ∧
    (∀ (q : String) (n : Nat) (F : Option (List String)),
      ∀ r ∈ searchExact ((addDocument db p "" t info).2) q n F,
        r.file_path ≠ p) ∧
    (∀ (qp : String) (n : Nat) (F : Option (List String)),
      pySplit qp ≠ [] →
      (∀ k ∈ pySplit qp, sqliteLike ("%" ++ k ++ "%") p = true) →
      typeFilter F t = true →
      ((addDocument db p "" t info).2.meta.filter
        (pathPred (pySplit qp) F)).length ≤ n →
      ∃ r ∈ searchPath ((addDocument db p "" t info).2) qp n F,
        r.file_path = p) := by
  obtain ⟨hfts, -, -, -⟩ := hwf
  have hadd : addDocument db p "" t info =
      (true,
        ⟨db.meta.filter (fun m => m.filePath ≠ p) ++
          [⟨db.nextId, p, info.fileHash, info.fileSize, info.fileCreated,
            info.fileModified, info.now, t⟩],
          db.fts.filter (fun f => f.docId ≠ db.nextId),
          db.nextId + 1⟩) := by
    rw [addDocument, if_neg hh]
    simp
  rw [hadd]
  dsimp only
  refine ⟨rfl, ?_, ?_, ?_⟩
  · exact ⟨_, List.mem_append_right _ (List.mem_singleton.mpr rfl), rfl⟩
  · intro q n F r hr
    rw [searchExact] at hr
    by_cases hq : pySplit q = []
    · rw [if_pos hq] at hr
      cases hr
    · rw [if_neg hq] at hr
      rcases List.mem_map.mp hr with ⟨fm, hfm, hrow⟩
      have hfm' := List.mem_filter.mp (List.mem_of_mem_take hfm)
      rcases List.mem_flatMap.mp hfm'.1 with ⟨f, hf, hfm2⟩
      rcases List.mem_map.mp hfm2 with ⟨m, hm, hpair⟩
      have hmm := List.mem_filter.mp hm
      intro hrp
      have hmp : m.filePath = p := by
        rw [← hrp, ← hrow, ← hpair]
        rfl
      have hmid : m.docId = db.nextId := by
        rcases List.mem_append.mp hmm.1 with hm' | hm'
        · exact absurd hmp (by simpa using (List.mem_filter.mp hm').2)
        · rw [List.mem_singleton.mp hm']
      have hfid : f.docId = m.docId := by simpa using hmm.2
      have hfne : ¬ f.docId = db.nextId := by
        simpa using (List.mem_filter.mp hf).2
      exact hfne (hfid.trans hmid)
  · intro qp n F hks hmatch hty hfit
    rw [searchPath, if_neg hks]
    refine ⟨pathRowOfMeta ⟨db.nextId, p, info.fileHash, info.fileSize,
      info.fileCreated, info.fileModified, info.now, t⟩, ?_, rfl⟩
    refine (mem_meta_pipeline _ _ _ _ hfit _).mpr
      ⟨_, List.mem_append_right _ (List.mem_singleton.mpr rfl), ?_, rfl⟩
    rw [pathPred]
    rw [Bool.and_eq_true]
    exact ⟨List.all_eq_true.mpr (fun k hk => hmatch k hk), hty⟩

/-- Witness for C7: adding `empty.txt` with an empty body onto the
`dbReplace` store; the membership facts are then instantiated at the
query `quick` and the path query `empty`. -/
theorem empty_body_metadata_only_witness :
    (∀ r ∈ searchExact
      ((addDocument dbReplace "empty.txt" "" "txt" infoReplace).2)
      "quick" 10 none, r.file_path ≠ "empty.txt") ∧
    (∃ r ∈ searchPath
      ((addDocument dbReplace "empty.txt" "" "txt" infoReplace).2)
      "empty" 10 none, r.file_path = "empty.txt") := by
  have h := empty_body_metadata_only dbReplace "empty.txt" "txt" infoReplace
    (by simp [WF, dbReplace]) (by decide)
  exact ⟨h.2.2.1 "quick" 10 none,
    h.2.2.2 "empty" 10 none (by decide) (by decide) rfl (by decide)⟩

/-- Witness for C3 at the store already holding `a.txt` (doc_id 1,
body `old content`): re-adding with an empty body makes `get_body`
absent, re-adding with `new body` makes it return `new body`. -/
theorem add_get_body_roundtrip_witness :
    getDocumentContent
      ((addDocument dbReplace "a.txt" "" "txt" infoReplace).2) "a.txt"
      = none ∧
    getDocumentContent
      ((addDocument dbReplace "a.txt" "new body" "txt" infoReplace).2)
      "a.txt" = some "new body" :=
  ⟨by
    have h := add_get_body_roundtrip dbReplace "a.txt" "" "txt" infoReplace
      (by simp [WF, dbReplace]) (by decide)
    simpa using h.2,
   by
    have h := add_get_body_roundtrip dbReplace "a.txt" "new body" "txt"
      infoReplace (by simp [WF, dbReplace]) (by decide)
    simpa using h.2⟩

end Filesearch
